import Mathlib

/-!
Verification development for the flip_simulation fault-injection harness.

The Python sources under `src/gdb/` are shallowly embedded below.  Pure
string processing (`parse_time`, `MemoryRange.parse`, the mtree parser,
`parse_address_ranges_file`) is transcribed into executable Lean functions
over `String`/`List Char`.  Python integers are `Int`/`Nat`; fallible
Python code (functions that may raise) returns `Except String _`, where
`.error` models an uncaught Python exception propagating out of the
function.  Randomness (`random.randint`) is modelled by passing the drawn
value as an explicit oracle argument.  Guest memory is a byte function
`Nat → Nat`; the hypothesis "reads return the last value written" is
expressed by reading back from the written state.
-/

/- ---------------------------------------------------------------------
Python primitives: whitespace, strip, int() conversions.
--------------------------------------------------------------------- -/

/-- Python `\s` / `str.strip` whitespace class (ASCII part): space, tab,
newline, carriage return, vertical tab, form feed. -/
def pyIsSpace (c : Char) : Bool :=
  c = ' ' || c = '\t' || c = '\n' || c = '\r' || c = '\x0b' || c = '\x0c'

/-- Python `str.strip()` on a character list. -/
def pyStripList (cs : List Char) : List Char :=
  ((cs.dropWhile pyIsSpace).reverse.dropWhile pyIsSpace).reverse

/-- Python `str.strip()`. -/
def pyStrip (s : String) : String :=
  String.mk (pyStripList s.toList)

/-- Python `str.rstrip()`. -/
def pyRstrip (s : String) : String :=
  String.mk ((s.toList.reverse.dropWhile pyIsSpace).reverse)

/-- Python `str.startswith(pre)` (via the structural list version, which
the kernel can evaluate). -/
def pyStartswith (s pre : String) : Bool :=
  pre.toList.isPrefixOf s.toList

/-- Python `str.split(sep)` for a one-character separator (every
`split` in this repository uses one): `"a--b".split("-") = ["a","","b"]`. -/
def splitOnChar (sep : Char) : List Char → List (List Char)
  | [] => [[]]
  | c :: rest =>
    if c = sep then [] :: splitOnChar sep rest
    else
      match splitOnChar sep rest with
      | g :: gs => (c :: g) :: gs
      | [] => [[c]]

/-- `splitOnChar` on strings. -/
def pySplit (s : String) (sep : Char) : List String :=
  (splitOnChar sep s.toList).map String.mk

/-- Decimal digit accumulator. -/
def digitsToNat (ds : List Char) : Nat :=
  ds.foldl (fun a c => 10 * a + (c.toNat - ('0').toNat)) 0

/-- Python `int(s)` for decimal strings: optional surrounding whitespace,
optional sign, then one or more decimal digits (`none` models a raised
`ValueError`; digit-group underscores are not modelled — no input in this
repository uses them). -/
def pyIntDec (s : String) : Option Int :=
  match pyStripList s.toList with
  | [] => none
  | c :: rest =>
    let signed : Int × List Char :=
      if c = '-' then (-1, rest) else if c = '+' then (1, rest) else (1, c :: rest)
    if signed.2 ≠ [] ∧ signed.2.all (fun d => d.isDigit) then
      some (signed.1 * (digitsToNat signed.2 : Int))
    else none

/-- Hex digit test, upper or lower case (regex class `[0-9a-fA-F]`). -/
def isHexDigitChar (c : Char) : Bool :=
  c.isDigit || (('a').toNat ≤ c.toNat && c.toNat ≤ ('f').toNat)
    || (('A').toNat ≤ c.toNat && c.toNat ≤ ('F').toNat)

/-- Value of one hex digit. -/
def hexDigitVal (c : Char) : Nat :=
  if c.isDigit then c.toNat - ('0').toNat
  else if ('a').toNat ≤ c.toNat && c.toNat ≤ ('f').toNat then c.toNat - ('a').toNat + 10
  else c.toNat - ('A').toNat + 10

/-- Hex digit accumulator. -/
def hexToNat (ds : List Char) : Nat :=
  ds.foldl (fun a c => 16 * a + hexDigitVal c) 0

/-- Python `int(s, 16)`: optional surrounding whitespace, optional sign,
optional `0x`/`0X` prefix, then one or more hex digits. -/
def pyIntHex (s : String) : Option Int :=
  let afterStrip := pyStripList s.toList
  let signed : Int × List Char :=
    match afterStrip with
    | c :: rest =>
      if c = '-' then (-1, rest) else if c = '+' then (1, rest) else (1, afterStrip)
    | [] => (1, [])
  let body : List Char :=
    match signed.2 with
    | c0 :: c1 :: rest => if c0 = '0' ∧ (c1 = 'x' ∨ c1 = 'X') then rest else signed.2
    | _ => signed.2
  if body ≠ [] ∧ body.all isHexDigitChar then
    some (signed.1 * (hexToNat body : Int))
  else none

/- ---------------------------------------------------------------------
qemu_utils.parse_time  (src/gdb/qemu_utils.py lines 363-381)
--------------------------------------------------------------------- -/

/-- `sorted(time_units.items())` from the source: the Python dict
`{"": 1, "ns": 1, "us": 1000, "ms": 10^6, "s": 10^9, "m": 60*10^9}`
iterated in sorted (lexicographic) key order. -/
def time_units_sorted : List (String × Int) :=
  [("", 1),
   ("m", 60 * 1000 * 1000 * 1000),
   ("ms", 1000 * 1000),
   ("ns", 1),
   ("s", 1000 * 1000 * 1000),
   ("us", 1000)]

/-- The `for unit, mul in sorted(time_units.items())` loop of `parse_time`.
Note the faithful transcription of the Python slice `s[:-len(unit)]`:
when `unit` is the empty string this is `s[:-0] = s[:0] = ""`, not `s`. -/
def parse_time_loop : List (String × Int) → String → Except String Int
  | [], s => .error (("could not parse units in ") ++ s)
  | (unit, mul) :: rest, s =>
    if unit.toList.isSuffixOf s.toList then
      let prefixStr : String :=
        if unit.length = 0 then ("")
        else String.mk (s.toList.take (s.toList.length - unit.length))
      match pyIntDec prefixStr with
      | none => parse_time_loop rest s
      | some n =>
        if n ≤ 0 then
          .error ((("expected positive number of ") ++ unit) ++ (" in ") ++ s)
        else .ok (n * mul)
    else parse_time_loop rest s

/-- `qemu_utils.parse_time`. -/
def parse_time (s : String) : Except String Int :=
  parse_time_loop time_units_sorted s

/- ---------------------------------------------------------------------
qemu_utils.MemoryRange  (src/gdb/qemu_utils.py lines 7-41)
--------------------------------------------------------------------- -/

/-- `MemoryRange` record.  The Python attribute `end` is a Lean keyword
and is rendered `end_`. -/
structure MemoryRange where
  start : Int
  end_ : Int
  priority : Int
  kind : String
  name : String
deriving Repr, DecidableEq

/-- Fail unless the character list is non-empty (one-or-more repetition
of a character class). -/
def guardNE (l : List Char) : Option (List Char) :=
  if l = [] then none else some l

/-- Consume one expected literal character. -/
def expectChar (c : Char) : List Char → Option (List Char)
  | x :: rest => if x = c then some rest else none
  | [] => none

/-- Consume an expected literal character sequence. -/
def expectPrefix (pre cs : List Char) : Option (List Char) :=
  if pre.isPrefixOf cs then some (cs.drop pre.length) else none

/-- The one genuinely backtracking piece of the pattern,
`\s+([^)]+)\)` applied after the comma: `\s+` first takes the maximal
whitespace run of length `k0 ≥ 1`; `[^)]+` then runs exactly to the
first `)` (at index `j ≥ k0`, since `)` is not whitespace).  If `j > k0`
the groups stand; if `j = k0` the engine backtracks one whitespace
character into the group (possible only when `k0 ≥ 2`); otherwise the
whole match fails (shrinking the earlier fixed-follower groups can
never help, as each is a maximal run whose follower is outside its
class). -/
def group4 (rest : List Char) : Option (List Char) :=
  let k0 := (rest.takeWhile pyIsSpace).length
  let j := rest.findIdx (fun d => d = ')')
  if !(rest.any (fun d => d = ')')) then none
  else if k0 = 0 then none
  else if k0 < j then some ((rest.drop k0).take (j - k0))
  else if 2 ≤ k0 ∧ j = k0 then some ((rest.drop (k0 - 1)).take 1)
  else none

/-- Deterministic equivalent of the Python regex match
`re.match(pattern, s)` with
`pattern = ^\s*([0-9a-fA-F]+)-([0-9a-fA-F]+)\s+\(prio\s+(\d+),\s+([^)]+)\):\s+(\S+)`
returning the five capture groups on success, written as a chain of
single-step consumers.  Maximal-munch is exact for every greedy piece
whose follower is outside its character class (`\s*` before hex, `hex+`
before `-` and before whitespace, `\s+` before `(` and before digits
and before `\S`, `digits+` before `,`); the only backtracking piece is
handled in `group4`.  `re.match` anchors at the start only, so trailing
characters are ignored. -/
def matchRangeLine (cs0 : List Char) :
    Option (List Char × List Char × List Char × List Char × List Char) := do
  let cs1 := cs0.dropWhile pyIsSpace
  let g1 ← guardNE (cs1.takeWhile isHexDigitChar)
  let r1 := cs1.dropWhile isHexDigitChar
  let r2 ← expectChar '-' r1
  let g2 ← guardNE (r2.takeWhile isHexDigitChar)
  let r3 := r2.dropWhile isHexDigitChar
  let _ ← guardNE (r3.takeWhile pyIsSpace)
  let r4 := r3.dropWhile pyIsSpace
  let r5 ← expectPrefix (("(prio").toList) r4
  let _ ← guardNE (r5.takeWhile pyIsSpace)
  let r6 := r5.dropWhile pyIsSpace
  let g3 ← guardNE (r6.takeWhile Char.isDigit)
  let r7 := r6.dropWhile Char.isDigit
  let rest ← expectChar ',' r7
  let g4 ← group4 rest
  let r8 := rest.drop ((rest.findIdx (fun d => d = ')')) + 1)
  let r9 ← expectChar ':' r8
  let _ ← guardNE (r9.takeWhile pyIsSpace)
  let r10 := r9.dropWhile pyIsSpace
  let g5 ← guardNE (r10.takeWhile (fun d => !(pyIsSpace d)))
  some (g1, g2, g3, g4, g5)

/-- `MemoryRange.parse`: strip the line, run the regex, build the record.
The `int(…, 16)` / `int(…)` conversions inside the Python `try` cannot
fail on matched groups (they are non-empty digit runs), so the inner
re-raise branch is unreachable. -/
def MemoryRange.parse (line : String) : Except String MemoryRange :=
  match matchRangeLine (pyStripList line.toList) with
  | none => .error (("Invalid memory range line format: ") ++ line)
  | some (g1, g2, g3, g4, g5) =>
    .ok { start := (hexToNat g1 : Int)
        , end_ := (hexToNat g2 : Int)
        , priority := (digitsToNat g3 : Int)
        , kind := pyStrip (String.mk g4)
        , name := String.mk g5 }

/-- `qemu_utils._is_memory_range_line`: same pattern, boolean result,
applied to the raw (unstripped) line — the pattern's own `^\s*` absorbs
leading whitespace. -/
def _is_memory_range_line (line : String) : Bool :=
  (matchRangeLine line.toList).isSome

/- ---------------------------------------------------------------------
qemu_utils.FlatView  (src/gdb/qemu_utils.py lines 43-79)
--------------------------------------------------------------------- -/

structure FlatView where
  ranges : List MemoryRange
deriving Repr, DecidableEq

/-- `FlatView.parse`: keep the lines `MemoryRange.parse` accepts, in
order; invalid lines are skipped (the Python code prints a warning). -/
def FlatView.parse (lines : List String) : FlatView :=
  { ranges := lines.filterMap (fun l => (MemoryRange.parse l).toOption) }

/-- `FlatView.ram_ranges`. -/
def FlatView.ram_ranges (fv : FlatView) : List (Int × Int) :=
  (fv.ranges.filter (fun r => r.kind == ("ram"))).map (fun r => (r.start, r.end_))

/-- Sum of `(end - start)` over a range list (`sum(lens)` in the source). -/
def sumLens (rs : List (Int × Int)) : Int :=
  (rs.map (fun r => r.2 - r.1)).sum

/-- The `for start, end in ranges` loop of `FlatView.random_address`:
`offset += start; if offset < end: return offset; offset -= end`.
`none` models falling through to `assert False`. -/
def random_address_loop : List (Int × Int) → Int → Option Int
  | [], _ => none
  | (s, e) :: rest, off =>
    let off1 := off + s
    if off1 < e then some off1 else random_address_loop rest (off1 - e)

/-- `FlatView.random_address`.  The argument `off` is the oracle for the
drawn value `random.randint(0, sum(lens) - 1)`; a genuine draw satisfies
`0 ≤ off ≤ sum(lens) - 1`.  `random.randint(0, n)` raises `ValueError`
when `n < 0`, i.e. exactly when `sum(lens) - 1 < 0`, before the loop
runs. -/
def FlatView.random_address (fv : FlatView) (off : Int) : Except String Int :=
  if sumLens fv.ram_ranges - 1 < 0 then .error ("ValueError: empty range for randrange()")
  else
    match random_address_loop fv.ram_ranges off with
    | some a => .ok a
    | none => .error ("AssertionError: should have been in range!")

/-- Modelled from the spec (for the refinement claim about
`random_address`): the reference algorithm
`offset = rand(0, L); for (s,e) in ranges: if offset < e-s: return s + offset; offset -= e-s`. -/
def spec_random_address : List (Int × Int) → Int → Option Int
  | [], _ => none
  | (s, e) :: rest, off =>
    if off < e - s then some (s + off) else spec_random_address rest (off - (e - s))

/- ---------------------------------------------------------------------
qemu_utils mtree parsing  (src/gdb/qemu_utils.py lines 105-249)
--------------------------------------------------------------------- -/

/-- `qemu_utils._extract_address_space_name` (lines 215-231): the line
must contain exactly two `"` characters; the name is `line.split('"')[1]`. -/
def _extract_address_space_name (line : String) : Except String String :=
  if line.toList.count ('"') ≠ 2 then .error (("Invalid AS line format: ") ++ line)
  else .ok ((pySplit line ('"')).getD 1 (""))

/-- The AS-header loop of `_parse_flatview_section` (lines 166-184),
processing the lines after the `FlatView #` line.  Returns the address
space names in order, a flag for the early return on hitting the next
`FlatView #` line (which is left unconsumed), and the remaining lines
(after the `' Root '` line when one was found).  A malformed AS line
raises (`.error`). -/
def mtreeSectionHeader : List String → Except String (List String × Bool × List String)
  | [] => .ok ([], false, [])
  | l :: rest =>
    let line := pyRstrip l
    if pyStartswith line (" AS \"") then
      match _extract_address_space_name line with
      | .error e => .error e
      | .ok n =>
        match mtreeSectionHeader rest with
        | .error e => .error e
        | .ok (ns, early, rem) => .ok (n :: ns, early, rem)
    else if pyStartswith line (" Root ") then .ok ([], false, rest)
    else if pyStartswith line ("FlatView #") then .ok ([], true, l :: rest)
    else mtreeSectionHeader rest

/-- The memory-range loop of `_parse_flatview_section` (lines 196-210):
collect rstripped range lines; stop (without consuming) at the next
`FlatView #` line or an empty line; skip anything else with a warning. -/
def mtreeRangeLines : List String → List String × List String
  | [] => ([], [])
  | l :: rest =>
    let line := pyRstrip l
    if pyStartswith line ("  ") && _is_memory_range_line line then
      let p := mtreeRangeLines rest
      (line :: p.1, p.2)
    else if pyStartswith line ("FlatView #") || line == ("") then ([], l :: rest)
    else mtreeRangeLines rest

/-- `qemu_utils._parse_flatview_section` (lines 151-212), taking the lines
after the `FlatView #` heading and returning the section's
address-space → range-lines mapping plus the unconsumed lines.  All the
section's address spaces share one body; `'  No rendered FlatView'`
removes them all. -/
def _parse_flatview_section (linesAfter : List String) :
    Except String (List (String × List String) × List String) :=
  match mtreeSectionHeader linesAfter with
  | .error e => .error e
  | .ok (asNames, early, rem) =>
    if early then .ok (asNames.map (fun n => (n, ([] : List String))), rem)
    else
      match rem with
      | [] => .ok (asNames.map (fun n => (n, ([] : List String))), [])
      | l :: rest =>
        if pyStartswith (pyRstrip l) ("  No rendered FlatView") then
          .ok ([], rest)
        else
          let p := mtreeRangeLines (l :: rest)
          .ok (asNames.map (fun n => (n, p.1)), p.2)

/-- Python `dict.update`: later entries overwrite in place, new keys are
appended in order. -/
def dictUpdate (m newEntries : List (String × List String)) : List (String × List String) :=
  newEntries.foldl
    (fun acc kv =>
      if acc.any (fun e => e.1 == kv.1) then
        acc.map (fun e => if e.1 == kv.1 then (e.1, kv.2) else e)
      else acc ++ [kv])
    m

/-- The main loop of `qemu_utils._parse_mtree_output` (lines 132-147):
scan for `FlatView #` headings, parse each section, fold its views into
the accumulated dictionary; any raised error propagates.  The `fuel`
argument makes the recursion structural; it only bounds the number of
loop iterations.  Each iteration consumes at least the heading line
(`_parse_flatview_section` never returns more lines than it was given),
so starting the loop with `fuel = lines.length` — as `_parse_mtree_output`
below does — the `fuel = 0, lines ≠ []` branch is unreachable. -/
def _parse_mtree_output_go (fuel : Nat) (lines : List String)
    (views : List (String × List String)) : Except String (List (String × List String)) :=
  match fuel, lines with
  | _, [] => .ok views
  | 0, _ :: _ => .error ("unreachable: loop fuel exhausted")
  | fuel + 1, l :: rest =>
    if pyStartswith (pyRstrip l) ("FlatView #") then
      match _parse_flatview_section rest with
      | .error e => .error e
      | .ok vr => _parse_mtree_output_go fuel vr.2 (dictUpdate views vr.1)
    else _parse_mtree_output_go fuel rest views

/-- `qemu_utils._parse_mtree_output` (lines 122-148): the scan loop
followed by the dict comprehension `{name: FlatView.parse(body)}`. -/
def _parse_mtree_output (output : String) : Except String (List (String × FlatView)) :=
  let lines := pySplit output ('\n')
  match _parse_mtree_output_go lines.length lines [] with
  | .error e => .error e
  | .ok views => .ok (views.map (fun nv => (nv.1, FlatView.parse nv.2)))

/-- `qemu_utils.mtree` (lines 108-119), with the monitor's
`info mtree -f` response supplied as the oracle argument `output`.  The
blanket `except` re-raises any parse error as
`RuntimeError("Failed to parse memory tree: …")`. -/
def mtree (output : String) : Except String (List (String × FlatView)) :=
  match _parse_mtree_output output with
  | .ok v => .ok v
  | .error e => .error (("Failed to parse memory tree: ") ++ e)

/- ---------------------------------------------------------------------
qemu_utils.inject_bitflip  (src/gdb/qemu_utils.py lines 251-266)
--------------------------------------------------------------------- -/

/-- `int.from_bytes(bs, "little")`: little-endian byte-list to integer. -/
def int_from_bytes (bs : List Nat) : Nat :=
  bs.foldr (fun b acc => b + 256 * acc) 0

/-- `int.to_bytes(n, w, "little")`: raises `OverflowError` when the value
does not fit in `w` bytes. -/
def int_to_bytes (n w : Nat) : Except String (List Nat) :=
  if n < 256 ^ w then .ok ((List.range w).map (fun i => n / 256 ^ i % 256))
  else .error ("OverflowError: int too big to convert")

/-- `inferior.read_memory(a, w)`: the `w` guest bytes starting at `a`. -/
def read_memory (mem : Nat → Nat) (a w : Nat) : List Nat :=
  (List.range w).map (fun i => mem (a + i))

/-- `inferior.write_memory(a, bs)`: overwrite `bs.length` bytes at `a`. -/
def write_memory (mem : Nat → Nat) (a : Nat) (bs : List Nat) : Nat → Nat :=
  fun x => if a ≤ x ∧ x < a + bs.length then bs.getD (x - a) 0 else mem x

/-- `qemu_utils.inject_bitflip` with an explicit `bit` (the `bit is None`
random draw is an oracle the caller supplies).  Guest memory is the byte
function `mem`; reads after the write observe the written state, which is
the "reads return the last value written" assumption.  `.error` models an
uncaught exception (`AssertionError` / `OverflowError`); on success the
new memory state is returned (the `log_single` call is not modelled). -/
def inject_bitflip (mem : Nat → Nat) (address w bit : Nat) : Except String (Nat → Nat) :=
  if w < 1 then .error ("AssertionError: invalid bytewidth") else
  let ovalue := int_from_bytes (read_memory mem address w)
  let nvalue := ovalue ^^^ (1 <<< bit)
  match int_to_bytes nvalue w with
  | .error e => .error e
  | .ok bs =>
    let mem2 := write_memory mem address bs
    let rnvalue := int_from_bytes (read_memory mem2 address w)
    if nvalue = rnvalue ∧ nvalue ≠ ovalue then .ok mem2
    else .error ("AssertionError: mismatched values")

/-- The body of the `inject` command handler after successful argument
parsing and address evaluation (src/gdb/fliputils.py lines 90-107): the
only validation is `bytewidth < 1 or address < 0` (print and return,
modelled as `.ok mem` with no injection); the `inject_bitflip` call is
not wrapped in any `try`, so an exception it raises escapes the handler. -/
def inject_cmd_body (mem : Nat → Nat) (address bytewidth : Int) (bit : Nat) :
    Except String (Nat → Nat) :=
  if bytewidth < 1 ∨ address < 0 then .ok mem
  else inject_bitflip mem address.toNat bytewidth.toNat bit

/- ---------------------------------------------------------------------
qemu_utils.inject_register_bitflip  (src/gdb/qemu_utils.py lines 268-319)
--------------------------------------------------------------------- -/

/-- Result of one register-flip attempt.  `success` = logged, returned
`True`; `rejected` = read-back equals the old value, returned `False`;
`caughtNone` = an exception was raised inside the `try` block and the
function's own blanket `except Exception` printed it, after which the
function falls off the end and returns `None`. -/
inductive RegFlipResult where
  | success
  | rejected
  | caughtNone (msg : String)
deriving Repr, DecidableEq

/-- The `try` body of `inject_register_bitflip` from the write-and-read
step onward, for a register already read as `oldval`: the read-back
`rrval` is the oracle for what the target returned.  `.error` models the
`raise RuntimeError` of the double-mismatch branch.  Register values are
modelled by their unsigned bit encoding (`Nat`); Python may render a
scalar as a negative int, but every comparison here is masked to
`bitcount` bits, which the unsigned encoding preserves. -/
def inject_register_bitflip_try (oldval rrval : Nat) (bit bitcount : Nat) :
    Except String Bool :=
  let bitmask : Nat := 2 ^ bitcount - 1
  let newval : Nat := oldval ^^^ (2 ^ bit)
  if newval &&& bitmask = rrval &&& bitmask then .ok true
  else if oldval &&& bitmask = rrval &&& bitmask then .ok false
  else .error ("double-mismatched register values")

/-- `qemu_utils.inject_register_bitflip` outcome: the whole `try` body is
wrapped in `except Exception as e: print(...)`, so the `RuntimeError`
raised by the double-mismatch branch is caught by the function itself,
which then returns `None`. -/
def inject_register_bitflip (oldval rrval : Nat) (bit bitcount : Nat) : RegFlipResult :=
  match inject_register_bitflip_try oldval rrval bit bitcount with
  | .ok true => .success
  | .ok false => .rejected
  | .error e => .caughtNone e

/- ---------------------------------------------------------------------
parser.parse_args_safely  (src/gdb/parser.py lines 6-32)
--------------------------------------------------------------------- -/

/-- The exceptions `parse_args_safely` distinguishes: `systemExit` is the
`sys.exit()` argparse performs on any schema violation (malformed number,
unknown choice, missing required parameter); `otherExn` is any other
`Exception`. -/
inductive ArgparseExn where
  | systemExit (msg : String)
  | otherExn (msg : String)
deriving Repr, DecidableEq

/-- `parser.parse_args_safely`: run the parser, return its record on
success; catch `SystemExit` and any other `Exception` and return the
sentinel `None`.  The result type `Option α` (not `Except`) expresses
that no exception propagates out of this function. -/
def parse_args_safely {α : Type} (result : Except ArgparseExn α) : Option α :=
  match result with
  | .ok a => some a
  | .error _ => none

/- ---------------------------------------------------------------------
fliputils.autoinject / snapinject validation
(src/gdb/fliputils.py lines 208-217 and 292-310)
--------------------------------------------------------------------- -/

/-- The shared `try` validation block of `autoinject` (and `snapinject`):
`assert times >= 1`, parse both intervals, `assert 0 < mint <= maxt`.
`ValueError` and `AssertionError` are caught, printed, and the handler
returns — modelled by `none`. -/
def autoinject_validate (times : Int) (mintS maxtS : String) :
    Option (Int × Int × Int) :=
  if times < 1 then none
  else
    match parse_time mintS with
    | .error _ => none
    | .ok mint =>
      match parse_time maxtS with
      | .error _ => none
      | .ok maxt =>
        if 0 < mint ∧ mint ≤ maxt then some (times, mint, maxt) else none

/-- The `(target, bit)` all-or-nothing check of `snapinject`
(src/gdb/fliputils.py line 308), transcribed literally:
`(location is None and bit_index is not None) and (location is not None and bit_index is None)`.
When it evaluates to `true` the command prints an error and returns
before any snapshot or injection. -/
def snapinject_pair_check (location : Option String) (bit_index : Option Int) : Bool :=
  (location.isNone && bit_index.isSome) && (location.isSome && bit_index.isNone)

/- ---------------------------------------------------------------------
fliputils.parse_address_ranges_file and appinject
(src/gdb/fliputils.py lines 354-373 and 405-462)
--------------------------------------------------------------------- -/

/-- Python `range(start, end, 1)` over integers. -/
def pyRange (s e : Int) : List Int :=
  (List.range (e - s).toNat).map (fun i => s + (i : Int))

/-- `fliputils.parse_address_ranges_file`, with the file's lines supplied
as a list: strip each line; skip blank lines and lines without `-`
silently; split on `-`, requiring exactly two pieces parseable as hex
(otherwise the raised `ValueError` is caught and the line skipped with a
warning); extend with every byte address in `[start, end)`. -/
def parse_address_ranges_file (fileLines : List String) : List Int :=
  fileLines.foldr
    (fun rawLine acc =>
      let line := pyStrip rawLine
      if line == ("") || !(line.toList.any (fun c => c = '-')) then acc
      else
        match (pySplit line ('-')).map pyIntHex with
        | [some s, some e] => pyRange s e ++ acc
        | _ => acc)
    []

/-- Python attribute-lookup model for the `appinject` parser construction
(src/gdb/fliputils.py lines 418-429): `ArgumentParser.add_argument`
returns the created `Action` object, not the parser, so the chained
builder rebinds `parser` to an `Action`. -/
inductive ArgparseObj where
  | parserObj
  | actionObj
deriving Repr, DecidableEq

/-- Calling `.add_argument(…)` on an argparse object: on a parser it
registers the argument and returns the new `Action`; an `Action` has no
such attribute, so Python raises `AttributeError`. -/
def addArgument : ArgparseObj → Except String ArgparseObj
  | .parserObj => .ok .actionObj
  | .actionObj => .error ("AttributeError: StoreAction object has no attribute add_argument")

/-- The `appinject` handler (src/gdb/fliputils.py lines 405-462).  Its
first statement chains two `add_argument` calls off the constructed
parser; the second call is performed on the `Action` returned by the
first and raises `AttributeError`, which nothing in the handler catches,
so every invocation fails here regardless of `args`.  The rest of the
handler (modelled separately as `appinject_core`) is unreachable. -/
def appinject (args : String) : Except String Unit :=
  match addArgument ArgparseObj.parserObj with
  | .error e => .error e
  | .ok p1 =>
    match addArgument p1 with
    | .error e => .error e
    | .ok _ => .ok ()

/-- Outcome of the post-parse body of `appinject`. -/
inductive AppinjectOutcome where
  | invalidCount
  | noAddresses
  | tooManyRequested
  | injected (n : Nat)
deriving Repr, DecidableEq

/-- The post-parse body of `appinject` (src/gdb/fliputils.py lines
435-462), the code the broken parser construction never reaches: reject
`count <= 0`; reject an empty address list; reject `count > len`;
otherwise inject at `count` sampled addresses. -/
def appinject_core (count : Int) (fileLines : List String) : AppinjectOutcome :=
  if count ≤ 0 then .invalidCount
  else
    let addresses := parse_address_ranges_file fileLines
    if addresses.length = 0 then .noAddresses
    else if count > (addresses.length : Int) then .tooManyRequested
    else .injected count.toNat

/- ---------------------------------------------------------------------
Concrete inputs used by the theorems below.
--------------------------------------------------------------------- -/

/-- All-zero guest memory. -/
def memZero : Nat → Nat := fun _ => 0

/-- Guest memory holding byte `0xAB` everywhere. -/
def memC5 : Nat → Nat := fun _ => 171

/-- A flat view with a single 8-byte RAM range at `0x1000`. -/
def fvC1 : FlatView :=
  { ranges := [ { start := 4096, end_ := 4104, priority := 0
                , kind := ("ram"), name := ("a") } ] }

/-- A flat view whose only `ram` range is empty (`end = start`), plus an
`i/o` range: the shape in which `random_address` has nothing to sample. -/
def fvC10 : FlatView :=
  { ranges := [ { start := 5, end_ := 5, priority := 0
                , kind := ("ram"), name := ("a") }
              , { start := 0, end_ := 16, priority := 0
                , kind := ("i/o"), name := ("b") } ] }

/-- An mtree response with two FlatView sections; the second has a
malformed AS line (a single `"`). -/
def mtreeBadAS : String :=
  "FlatView #0\n AS \"memory\", root: system\n Root memory region: system\n  0000000000000000-000000000000ffff (prio 0, ram): mem\n\nFlatView #1\n AS \"oops, root: bus\n Root memory region: r\n"

/-- The first (well-formed) section of `mtreeBadAS` alone. -/
def mtreeGoodPrefix : String :=
  "FlatView #0\n AS \"memory\", root: system\n Root memory region: system\n  0000000000000000-000000000000ffff (prio 0, ram): mem\n"

/-- An mtree response with one section whose middle range line is
unparseable. -/
def mtreeBadRange : String :=
  "FlatView #0\n AS \"memory\", root: system\n Root memory region: system\n  0000000000000000-000000000000ffff (prio 0, ram): mem\n  zzzz-invalid (prio x): what\n  0000000000010000-000000000001ffff (prio 0, i/o): io2\n"

/- ---------------------------------------------------------------------
Theorems.
--------------------------------------------------------------------- -/

/-- C2: `parse_time` implements the duration contract on every suffixed
form — `parse_time "10s" = 10^10`, `parse_time "0ms"` raises, and
`5ms`, `5000us`, `5000000ns` all give `5·10^6` — but the claimed
no-suffix case is broken by the slice `s[:-len(unit)]`, which for the
empty suffix is `s[:0] = ""`, so `parse_time "7"` raises
`could not parse units` instead of returning `7` (the `"": 1` entry of
the unit table shows the intent). -/
theorem C2_parse_time_code_bug :
    parse_time ("10s") = .ok 10000000000
    ∧ (parse_time ("0ms")).isOk = false
    ∧ parse_time ("5ms") = .ok 5000000
    ∧ parse_time ("5000us") = .ok 5000000
    ∧ parse_time ("5000000ns") = .ok 5000000
    ∧ parse_time ("7") = .error ("could not parse units in 7") :=
  ⟨rfl, rfl, rfl, rfl, rfl, rfl⟩

/-- C3: the three read-back branches of `inject_register_bitflip` behave
as claimed for the first two cases (masked-new match → `success`/log,
masked-old match → `rejected`/retry), but the double-mismatch case is
not a hard failure: the `raise RuntimeError` sits inside the function's
own blanket `try/except Exception`, which catches it, prints it, and
returns `None` — a silent falsy return the caller treats like a retry.
The last conjunct shows the inner body does raise. -/
theorem C3_register_flip_swallows_hard_failure :
    inject_register_bitflip 0 1 0 64 = RegFlipResult.success
    ∧ inject_register_bitflip 0 0 0 64 = RegFlipResult.rejected
    ∧ inject_register_bitflip 0 3 0 64
        = RegFlipResult.caughtNone ("double-mismatched register values")
    ∧ inject_register_bitflip_try 0 3 0 64
        = .error ("double-mismatched register values") :=
  ⟨rfl, rfl, rfl, rfl⟩

/-- C4: the `snapinject` all-or-nothing validation of
`(--fault-location, --bit-index)` never fires: the source joins the two
mutually exclusive mismatch cases with `and` instead of `or`, producing
the unsatisfiable condition
`(loc is None ∧ bit is not None) ∧ (loc is not None ∧ bit is None)`.
In particular supplying exactly one of the pair is not rejected and the
command proceeds to snapshot and injection. -/
theorem C4_snapinject_validation_unsatisfiable :
    ∀ (location : Option String) (bit_index : Option Int),
      snapinject_pair_check location bit_index = false := by
  intro location bit_index
  cases location <;> cases bit_index <;> rfl

/-- C8: the range-file half of the claim holds — a single line
`0x1000-0x1004` yields exactly the four byte addresses, and the intended
post-parse body would perform 2 injections and reject 5 — but every
`appinject` invocation actually dies first: the handler builds its
parser by chaining `.add_argument(...)` calls, and `add_argument`
returns the `Action`, not the parser, so the second chained call raises
an uncaught `AttributeError` before any parsing or injection. -/
theorem C8_appinject_code_bug :
    (∀ args : String, appinject args
        = .error ("AttributeError: StoreAction object has no attribute add_argument"))
    ∧ parse_address_ranges_file [("0x1000-0x1004")] = [4096, 4097, 4098, 4099]
    ∧ appinject_core 2 [("0x1000-0x1004")] = AppinjectOutcome.injected 2
    ∧ appinject_core 5 [("0x1000-0x1004")] = AppinjectOutcome.tooManyRequested :=
  ⟨fun _ => rfl, rfl, rfl, rfl⟩

/-- C6 counterexample: in `mtreeBadAS` the first FlatView section is
well-formed (see `C6_amended_err_confined_to_whole_parse`'s second
conjunct for the same section parsing alone), yet the malformed AS line
of the *second* section makes the whole `mtree` call fail — no mapping
is returned at all, so the first section's address space does not appear
anywhere, contradicting the claim that the error is confined to the
flatview that contains it. -/
theorem C6_counterexample_whole_parse_fails : (mtree mtreeBadAS).isOk = false := rfl

/-- C6 amended: a malformed AS line is a hard error for the *entire*
mtree parse — the `ValueError` from `_extract_address_space_name`
propagates out of `_parse_mtree_output` and `mtree` re-raises it as
`RuntimeError("Failed to parse memory tree: …")`, so no address space of
any section is returned — while unparseable range lines are indeed
merely skipped with a warning (third conjunct: the bad middle range line
of `mtreeBadRange` is dropped and both remaining ranges survive). -/
theorem C6_amended_err_confined_to_whole_parse :
    (∀ output e, _parse_mtree_output output = .error e →
        mtree output = .error (("Failed to parse memory tree: ") ++ e))
    ∧ (mtree mtreeGoodPrefix).map (fun vs => vs.map (fun nv => (nv.1, nv.2.ranges.length)))
        = .ok [(("memory"), 1)]
    ∧ (mtree mtreeBadRange).map (fun vs => vs.map (fun nv => (nv.1, nv.2.ranges.length)))
        = .ok [(("memory"), 2)] := by
  refine ⟨?_, rfl, rfl⟩
  intro output e h
  unfold mtree
  rw [h]

/-- C6 witness: the propagation conjunct applied to the concrete bad
input. -/
theorem C6_amended_witness :
    mtree mtreeBadAS
      = .error (("Failed to parse memory tree: Invalid AS line format:  AS \"oops, root: bus")) :=
  C6_amended_err_confined_to_whole_parse.1 mtreeBadAS
    ("Invalid AS line format:  AS \"oops, root: bus") (by rfl)

/-- C7 counterexample: `MemoryRange.parse` accepts the line
`ffff-0000 (prio 0,  ): x` and returns a record with
`start = 0xffff > 0 = end` and an empty `kind` (the regex places no
ordering constraint on the two hex fields, and `[^)]+` can match only
whitespace, which `.strip()` then empties), refuting both the
`start ≤ end` and the `kind` non-emptiness halves of the claim. -/
theorem C7_counterexample_start_gt_end :
    MemoryRange.parse ("ffff-0000 (prio 0,  ): x")
      = .ok { start := 65535, end_ := 0, priority := 0, kind := (""), name := ("x") } := rfl

/-- C9 counterexample: a bit index outside the selected byte width is
*not* a printed-and-return user-input error: `inject` passes it straight
to `inject_bitflip`, where `int.to_bytes` raises `OverflowError`
(`0 ^ (1 << 8) = 256` does not fit in 1 byte), and nothing in the
handler catches it, so the exception escapes the command handler. -/
theorem C9_counterexample_bit_outside_width_escapes :
    inject_cmd_body memZero 0 1 8 = .error ("OverflowError: int too big to convert") := rfl

/-- C9 amended: every user-input error *except* an out-of-width bit
index is printed and the command returns normally — `parse_args_safely`
turns any argparse failure (the `SystemExit` from a malformed number,
unknown choice, or missing required parameter, and any other exception)
into the sentinel `None` instead of letting it propagate, and the
campaign handlers turn a zero/negative fault count or `min > max`
intervals into a printed return — but a bit index outside the selected
byte width in `inject` raises an uncaught `OverflowError` that escapes
the handler (last conjunct). -/
theorem C9_amended_input_errors_contained :
    (∀ (e : ArgparseExn), @parse_args_safely Unit (.error e) = none)
    ∧ (∀ (times : Int) (a b : String), times < 1 → autoinject_validate times a b = none)
    ∧ autoinject_validate 1 ("2ms") ("1ms") = none
    ∧ inject_bitflip memZero 0 1 8 = .error ("OverflowError: int too big to convert") := by
  refine ⟨fun e => rfl, ?_, rfl, rfl⟩
  intro times a b h
  unfold autoinject_validate
  rw [if_pos h]

/-- C9 witness: the zero-fault-count conjunct at a concrete input. -/
theorem C9_amended_witness : autoinject_validate 0 ("1ms") ("2ms") = none :=
  C9_amended_input_errors_contained.2.1 0 ("1ms") ("2ms") (by decide)

/-- C10: when no `ram`-kinded range of the flat view has positive length
(none at all, or all with `end = start`), the lengths sum to zero, so
`random.randint(0, -1)` raises `ValueError` before the loop and
`random_address` returns no address; `sample_address()` — which is
`mtree()["memory"].random_address()` — and every RAM-targeted random
injection built on it therefore implicitly require a non-degenerate
`ram` range in the `"memory"` address space. -/
theorem C10_random_address_raises_on_empty_ram (fv : FlatView) (off : Int)
    (h : ∀ r ∈ fv.ranges, r.kind = ("ram") → r.end_ = r.start) :
    fv.random_address off = .error ("ValueError: empty range for randrange()") := by
  have hz : sumLens fv.ram_ranges = 0 := by
    unfold sumLens FlatView.ram_ranges
    apply List.sum_eq_zero
    intro x hx
    simp only [List.map_map, List.mem_map, Function.comp] at hx
    obtain ⟨r, hr, hxe⟩ := hx
    have hr2 := List.mem_filter.mp hr
    have hk : r.kind = ("ram") := by simpa using hr2.2
    have hee := h r hr2.1 hk
    omega
  unfold FlatView.random_address
  rw [hz]
  norm_num

/-- C10 witness: the degenerate flat view `fvC10`. -/
theorem C10_witness :
    FlatView.random_address fvC10 7 = .error ("ValueError: empty range for randrange()") :=
  C10_random_address_raises_on_empty_ram fvC10 7 (by decide)

/-- The source's offset-accumulation loop computes exactly the reference
algorithm of the spec: at each step `off + s < e ↔ off < e - s` and
`(off + s) - e = off - (e - s)`. -/
theorem random_address_loop_eq_spec (l : List (Int × Int)) :
    ∀ off, random_address_loop l off = spec_random_address l off := by
  induction l with
  | nil => intro off; rfl
  | cons p rest ih =>
    intro off
    obtain ⟨s, e⟩ := p
    simp only [random_address_loop, spec_random_address]
    by_cases hc : off + s < e
    · rw [if_pos hc, if_pos (by omega : off < e - s)]
      congr 1
      omega
    · rw [if_neg hc, if_neg (by omega : ¬ off < e - s), ih]
      congr 1
      omega

/-- When every range has positive width and the drawn offset lies inside
the total width, the loop returns an address inside one of the ranges. -/
theorem random_address_loop_mem (l : List (Int × Int)) :
    ∀ off, (∀ p ∈ l, p.1 < p.2) → 0 ≤ off → off < sumLens l →
      ∃ a, random_address_loop l off = some a ∧ ∃ p ∈ l, p.1 ≤ a ∧ a < p.2 := by
  induction l with
  | nil =>
    intro off _ h0 hlt
    simp [sumLens] at hlt
    omega
  | cons p rest ih =>
    intro off hpos h0 hlt
    obtain ⟨s, e⟩ := p
    simp only [random_address_loop]
    by_cases hc : off + s < e
    · exact ⟨off + s, by rw [if_pos hc], ⟨(s, e), by simp, by omega, hc⟩⟩
    · have hse : s < e := hpos (s, e) (by simp)
      have hsum : sumLens ((s, e) :: rest) = (e - s) + sumLens rest := by
        simp [sumLens]
      obtain ⟨a, ha, q, hq, hqa⟩ :=
        ih (off + s - e) (fun r hr => hpos r (by simp [hr])) (by omega) (by omega)
      exact ⟨a, by rw [if_neg hc]; exact ha, q, by simp [hq], hqa⟩

/-- C1: for a flat view whose `ram`-kinded ranges all have
`start < end` and a drawn offset `off ∈ [0, L)` (`L` the summed widths),
`random_address` raises nothing and returns exactly the address of the
spec's reference algorithm
`for (s,e) in ranges: if off < e-s: return s + off; off -= e-s`,
and that address lies inside one of the view's RAM ranges. -/
theorem C1_random_address_refines_spec (fv : FlatView) (off : Int)
    (h1 : ∀ r ∈ fv.ranges, r.kind = ("ram") → r.start < r.end_)
    (h2 : 0 ≤ off) (h3 : off < sumLens fv.ram_ranges) :
    ∃ a, fv.random_address off = .ok a
      ∧ spec_random_address fv.ram_ranges off = some a
      ∧ ∃ p ∈ fv.ram_ranges, p.1 ≤ a ∧ a < p.2 := by
  have hpos : ∀ p ∈ fv.ram_ranges, p.1 < p.2 := by
    intro p hp
    unfold FlatView.ram_ranges at hp
    simp only [List.mem_map, List.mem_filter] at hp
    obtain ⟨r, ⟨hr, hk⟩, rfl⟩ := hp
    exact h1 r hr (by simpa using hk)
  obtain ⟨a, ha, hmem⟩ := random_address_loop_mem fv.ram_ranges off hpos h2 h3
  refine ⟨a, ?_, ?_, hmem⟩
  · unfold FlatView.random_address
    rw [if_neg (by omega : ¬ sumLens fv.ram_ranges - 1 < 0), ha]
  · rw [← random_address_loop_eq_spec]
    exact ha

/-- C1 witness: one 8-byte RAM range at `0x1000`, offset 5. -/
theorem C1_witness :
    ∃ a, FlatView.random_address fvC1 5 = .ok a
      ∧ spec_random_address fvC1.ram_ranges 5 = some a
      ∧ ∃ p ∈ fvC1.ram_ranges, p.1 ≤ a ∧ a < p.2 :=
  C1_random_address_refines_spec fvC1 5 (by decide) (by decide) (by decide)

/-- Inversion for the one-or-more guard. -/
theorem guardNE_eq_some (l x : List Char) (h : guardNE l = some x) : x = l ∧ l ≠ [] := by
  unfold guardNE at h
  split at h
  · cases h
  · cases h
    exact ⟨rfl, by assumption⟩

/-- A successful range-line match always has a non-empty name group
(the final `(\S+)` requires at least one non-whitespace character). -/
theorem matchRangeLine_name_ne_nil (cs g1 g2 g3 g4 g5 : List Char)
    (h : matchRangeLine cs = some (g1, g2, g3, g4, g5)) : g5 ≠ [] := by
  simp only [matchRangeLine, bind, Option.bind_eq_some] at h
  obtain ⟨a1, h1, a2, h2, a3, h3, a4, h4, a5, h5, a6, h6, a7, h7, a8, h8,
          a9, h9, a10, h10, a11, h11, a12, h12, hfin⟩ := h
  cases hfin
  obtain ⟨heq, hne⟩ := guardNE_eq_some _ _ h12
  rw [heq]
  exact hne

/-- C7 amended: a successful `MemoryRange.parse` guarantees a non-empty
`name`; it does *not* guarantee `start ≤ end` (the regex places no order
constraint on the two hex fields) nor a non-empty `kind` (`[^)]+` can
match pure whitespace, which `.strip()` empties) — see the
counterexample theorem for a single input refuting both. -/
theorem C7_parse_success_name_nonempty (line : String) (r : MemoryRange)
    (h : MemoryRange.parse line = .ok r) : r.name ≠ ("") := by
  unfold MemoryRange.parse at h
  cases hm : matchRangeLine (pyStripList line.toList) with
  | none => rw [hm] at h; cases h
  | some g =>
    rw [hm] at h
    obtain ⟨g1, g2, g3, g4, g5⟩ := g
    cases h
    have h5 := matchRangeLine_name_ne_nil _ _ _ _ _ _ hm
    intro contra
    apply h5
    have h6 := congrArg String.toList contra
    simpa using h6

/-- C7 witness: the amended theorem applied to a well-formed line from
the repository's own tests. -/
theorem C7_amended_witness :
    ({ start := 0, end_ := 65535, priority := 0, kind := ("i/o"), name := ("io") }
        : MemoryRange).name ≠ ("") :=
  C7_parse_success_name_nonempty
    ("  0000000000000000-000000000000ffff (prio 0, i/o): io") _ (by rfl)

/-- `int_from_bytes` unfolding on a cons. -/
theorem int_from_bytes_cons (b : Nat) (t : List Nat) :
    int_from_bytes (b :: t) = b + 256 * int_from_bytes t := rfl

/-- A little-endian byte list denotes a value below `256 ^ length`. -/
theorem int_from_bytes_lt (bs : List Nat) (h : ∀ b ∈ bs, b < 256) :
    int_from_bytes bs < 256 ^ bs.length := by
  induction bs with
  | nil => simp [int_from_bytes]
  | cons b t ih =>
    have hb : b < 256 := h b (by simp)
    have ht := ih (fun x hx => h x (by simp [hx]))
    have hpow : (256 : Nat) ^ (b :: t).length = 256 * 256 ^ t.length := by
      rw [List.length_cons, pow_succ]
      ring
    rw [int_from_bytes_cons]
    omega

/-- Recomposing the little-endian digits of `n < 256 ^ w` gives `n`. -/
theorem int_from_bytes_digits (w : Nat) : ∀ n, n < 256 ^ w →
    int_from_bytes ((List.range w).map (fun i => n / 256 ^ i % 256)) = n := by
  induction w with
  | zero =>
    intro n h
    simp only [pow_zero] at h
    have hn : n = 0 := by omega
    subst hn
    rfl
  | succ w ih =>
    intro n h
    rw [List.range_succ_eq_map, List.map_cons, List.map_map]
    have hmap : ((fun i => n / 256 ^ i % 256) ∘ Nat.succ)
        = (fun i => n / 256 / 256 ^ i % 256) := by
      funext i
      simp only [Function.comp_apply, Nat.succ_eq_add_one]
      rw [pow_succ', ← Nat.div_div_eq_div_mul]
    rw [hmap, int_from_bytes_cons]
    have hdivlt : n / 256 < 256 ^ w := by
      rw [Nat.div_lt_iff_lt_mul (by norm_num : (0 : Nat) < 256), ← pow_succ]
      exact h
    rw [ih (n / 256) hdivlt]
    simp only [pow_zero, Nat.div_one]
    exact Nat.mod_add_div n 256

/-- Extracting digit `j` of the value of a byte list recovers byte `j`. -/
theorem int_from_bytes_digit (bs : List Nat) (h : ∀ b ∈ bs, b < 256) :
    ∀ j, j < bs.length → int_from_bytes bs / 256 ^ j % 256 = bs.getD j 0 := by
  induction bs with
  | nil => intro j hj; simp at hj
  | cons b t ih =>
    intro j hj
    have hb : b < 256 := h b (by simp)
    cases j with
    | zero =>
      rw [int_from_bytes_cons, pow_zero, Nat.div_one, List.getD_cons_zero]
      rw [Nat.add_mul_mod_self_left b 256 (int_from_bytes t)]
      exact Nat.mod_eq_of_lt hb
    | succ j =>
      rw [int_from_bytes_cons, List.getD_cons_succ]
      have hstep : (b + 256 * int_from_bytes t) / 256 ^ (j + 1)
          = int_from_bytes t / 256 ^ j := by
        rw [pow_succ', ← Nat.div_div_eq_div_mul]
        congr 1
        rw [Nat.add_mul_div_left b (int_from_bytes t) (by norm_num : (0 : Nat) < 256)]
        rw [Nat.div_eq_of_lt hb, Nat.zero_add]
      rw [hstep]
      exact ih (fun x hx => h x (by simp [hx])) j (by simpa using hj)

/-- `read_memory` returns as many bytes as requested. -/
theorem read_memory_length (mem : Nat → Nat) (a w : Nat) :
    (read_memory mem a w).length = w := by
  simp [read_memory]

/-- Every byte read from valid memory is below 256. -/
theorem read_memory_lt (mem : Nat → Nat) (a w : Nat)
    (hm : ∀ i, i < w → mem (a + i) < 256) :
    ∀ b ∈ read_memory mem a w, b < 256 := by
  intro b hb
  simp only [read_memory, List.mem_map, List.mem_range] at hb
  obtain ⟨i, hi, rfl⟩ := hb
  exact hm i hi

/-- Reading back exactly the written span returns the written bytes. -/
theorem read_write_memory (mem : Nat → Nat) (a : Nat) (bs : List Nat) :
    read_memory (write_memory mem a bs) a bs.length = bs := by
  apply List.ext_getElem
  · simp [read_memory]
  · intro i h1 h2
    simp only [read_memory, List.getElem_map, List.getElem_range, write_memory]
    rw [if_pos ⟨by omega, by omega⟩]
    rw [Nat.add_sub_cancel_left]
    exact List.getD_eq_getElem bs 0 h2


/-- `read_write_memory`, with the span length given as an equation. -/
theorem read_write_memory_of_len (mem : Nat → Nat) (a w : Nat) (bs : List Nat)
    (h : bs.length = w) : read_memory (write_memory mem a bs) a w = bs := by
  subst h
  exact read_write_memory mem a bs

/-- A write changes nothing outside its span. -/
theorem write_memory_outside (mem : Nat → Nat) (a : Nat) (bs : List Nat) (x : Nat)
    (h : x < a ∨ a + bs.length ≤ x) : write_memory mem a bs x = mem x := by
  unfold write_memory
  rw [if_neg (by omega)]

/-- Inside its span, a write installs the corresponding byte. -/
theorem write_memory_inside (mem : Nat → Nat) (a : Nat) (bs : List Nat) (x : Nat)
    (h1 : a ≤ x) (h2 : x < a + bs.length) :
    write_memory mem a bs x = bs.getD (x - a) 0 := by
  unfold write_memory
  rw [if_pos ⟨h1, h2⟩]

/-- Toggling one bit changes the value. -/
theorem xor_pow_ne (v p : Nat) (hp : p ≠ 0) : v ^^^ p ≠ v := by
  intro hcontra
  apply hp
  have h2 := congrArg (fun x => v ^^^ x) hcontra
  simpa only [← Nat.xor_assoc, Nat.xor_self, Nat.zero_xor] using h2

/-- One successful `inject_bitflip` under the preconditions of C5: the
overflow check and both read-back asserts pass, and the resulting state
holds the little-endian digits of `old ^^^ 2^bit` on the written window
and the old bytes everywhere else. -/
theorem inject_bitflip_spec (mem : Nat → Nat) (a w bit : Nat)
    (hw : 1 ≤ w) (hb : bit < 8 * w) (hm : ∀ i, i < w → mem (a + i) < 256) :
    ∃ mem1, inject_bitflip mem a w bit = .ok mem1
      ∧ (∀ i, i < w → mem1 (a + i)
            = (int_from_bytes (read_memory mem a w) ^^^ 2 ^ bit) / 256 ^ i % 256)
      ∧ (∀ x, (x < a ∨ a + w ≤ x) → mem1 x = mem x) := by
  have hov : int_from_bytes (read_memory mem a w) < 256 ^ w := by
    have h1 := int_from_bytes_lt _ (read_memory_lt mem a w hm)
    rwa [read_memory_length] at h1
  have h256 : (256 : Nat) ^ w = 2 ^ (8 * w) := by
    rw [pow_mul]
    norm_num
  have hp : (2 : Nat) ^ bit < 256 ^ w := by
    rw [h256]
    exact Nat.pow_lt_pow_right (by norm_num) hb
  have hnv : int_from_bytes (read_memory mem a w) ^^^ 2 ^ bit < 256 ^ w := by
    rw [h256]
    exact Nat.xor_lt_two_pow (h256 ▸ hov) (h256 ▸ hp)
  have hshift : (1 : Nat) <<< bit = 2 ^ bit := Nat.one_shiftLeft bit
  have hlen : ((List.range w).map
      (fun i => (int_from_bytes (read_memory mem a w) ^^^ 2 ^ bit) / 256 ^ i % 256)).length
      = w := by
    simp
  have hrw : read_memory (write_memory mem a ((List.range w).map
      (fun i => (int_from_bytes (read_memory mem a w) ^^^ 2 ^ bit) / 256 ^ i % 256))) a w
      = (List.range w).map
          (fun i => (int_from_bytes (read_memory mem a w) ^^^ 2 ^ bit) / 256 ^ i % 256) := by
    exact read_write_memory_of_len mem a w _ hlen
  have hdig := int_from_bytes_digits w _ hnv
  have hne := xor_pow_ne (int_from_bytes (read_memory mem a w)) (2 ^ bit)
    (by positivity)
  refine ⟨write_memory mem a ((List.range w).map
      (fun i => (int_from_bytes (read_memory mem a w) ^^^ 2 ^ bit) / 256 ^ i % 256)),
    ?_, ?_, ?_⟩
  · unfold inject_bitflip
    rw [if_neg (by omega : ¬ w < 1), hshift]
    have htb : int_to_bytes (int_from_bytes (read_memory mem a w) ^^^ 2 ^ bit) w
        = .ok ((List.range w).map
            (fun i => (int_from_bytes (read_memory mem a w) ^^^ 2 ^ bit) / 256 ^ i % 256)) := by
      unfold int_to_bytes
      rw [if_pos hnv]
    simp only [htb]
    rw [hrw, hdig]
    rw [if_pos ⟨rfl, hne⟩]
  · intro i hi
    rw [write_memory_inside _ _ _ _ (by omega) (by rw [hlen]; omega)]
    rw [Nat.add_sub_cancel_left]
    rw [List.getD_eq_getElem _ 0 (by rw [hlen]; exact hi)]
    simp
  · intro x hx
    refine write_memory_outside _ _ _ _ ?_
    rw [hlen]
    exact hx

/-- C5: with `w ≥ 1`, `bit < 8·w`, and byte-valid memory (each byte
below 256) — and with "reads return the last value written" built into
the memory model — two successive `inject_bitflip(a, w, bit)` calls
succeed and return the guest memory to exactly its original state
(`x ^^^ (1 << bit)` is an involution). -/
theorem C5_double_inject_restores (mem : Nat → Nat) (a w bit : Nat)
    (hw : 1 ≤ w) (hb : bit < 8 * w) (hm : ∀ i, i < w → mem (a + i) < 256) :
    (inject_bitflip mem a w bit).bind (fun m1 => inject_bitflip m1 a w bit) = .ok mem := by
  obtain ⟨mem1, h1, hin1, hout1⟩ := inject_bitflip_spec mem a w bit hw hb hm
  set ov := int_from_bytes (read_memory mem a w) with hov_def
  have hm1 : ∀ i, i < w → mem1 (a + i) < 256 := by
    intro i hi
    rw [hin1 i hi]
    exact Nat.mod_lt _ (by norm_num)
  obtain ⟨mem2, h2, hin2, hout2⟩ := inject_bitflip_spec mem1 a w bit hw hb hm1
  have hread1 : read_memory mem1 a w
      = (List.range w).map (fun i => (ov ^^^ 2 ^ bit) / 256 ^ i % 256) := by
    apply List.ext_getElem
    · simp [read_memory]
    · intro i hA hB
      simp only [read_memory, List.getElem_map, List.getElem_range]
      exact hin1 i (by simpa using hB)
  have hovlt : ov < 256 ^ w := by
    have h3 := int_from_bytes_lt _ (read_memory_lt mem a w hm)
    rwa [read_memory_length] at h3
  have h256 : (256 : Nat) ^ w = 2 ^ (8 * w) := by
    rw [pow_mul]
    norm_num
  have hplt : (2 : Nat) ^ bit < 256 ^ w := by
    rw [h256]
    exact Nat.pow_lt_pow_right (by norm_num) hb
  have hnvlt : ov ^^^ 2 ^ bit < 256 ^ w := by
    rw [h256]
    exact Nat.xor_lt_two_pow (h256 ▸ hovlt) (h256 ▸ hplt)
  have hiv1 : int_from_bytes (read_memory mem1 a w) = ov ^^^ 2 ^ bit := by
    rw [hread1]
    exact int_from_bytes_digits w _ hnvlt
  have hcancel : (ov ^^^ 2 ^ bit) ^^^ 2 ^ bit = ov := Nat.xor_cancel_right _ _
  have hfinal : mem2 = mem := by
    funext x
    by_cases hx : a ≤ x ∧ x < a + w
    · have hix : x - a < w := by omega
      have h2x : mem2 x
          = (int_from_bytes (read_memory mem1 a w) ^^^ 2 ^ bit) / 256 ^ (x - a) % 256 := by
        have h4 := hin2 (x - a) hix
        rwa [show a + (x - a) = x by omega] at h4
      rw [h2x, hiv1, hcancel]
      have hdigit := int_from_bytes_digit (read_memory mem a w) (read_memory_lt mem a w hm)
        (x - a) (by rw [read_memory_length]; exact hix)
      have hgetD : (read_memory mem a w).getD (x - a) 0 = mem x := by
        rw [List.getD_eq_getElem _ 0 (by rw [read_memory_length]; exact hix)]
        simp only [read_memory, List.getElem_map, List.getElem_range]
        rw [show a + (x - a) = x by omega]
      rw [← hov_def] at hdigit
      rw [hdigit, hgetD]
    · have hout : x < a ∨ a + w ≤ x := by omega
      rw [hout2 x hout, hout1 x hout]
  rw [h1]
  show inject_bitflip mem1 a w bit = .ok mem
  rw [h2, hfinal]

/-- C5 witness: double flip of bit 3 in a one-byte window of `0xAB`
memory. -/
theorem C5_witness :
    (inject_bitflip memC5 0 1 3).bind (fun m1 => inject_bitflip m1 0 1 3) = .ok memC5 :=
  C5_double_inject_restores memC5 0 1 3 (by decide) (by decide)
    (fun i _ => by show (171 : Nat) < 256; norm_num)

/-- The AS-header loop never returns more lines than it was given. -/
theorem mtreeSectionHeader_rem_le (ls : List String) :
    ∀ ns e rem, mtreeSectionHeader ls = .ok (ns, e, rem) → rem.length ≤ ls.length := by
  induction ls with
  | nil =>
    intro ns e rem h
    simp only [mtreeSectionHeader] at h
    cases h
    simp
  | cons l rest ih =>
    intro ns e rem h
    simp only [mtreeSectionHeader] at h
    split at h
    · cases h1 : _extract_address_space_name (pyRstrip l) with
      | error e2 => rw [h1] at h; cases h
      | ok n =>
        rw [h1] at h
        cases h2 : mtreeSectionHeader rest with
        | error e2 => rw [h2] at h; cases h
        | ok trip =>
          rw [h2] at h
          obtain ⟨ns2, early2, rem2⟩ := trip
          cases h
          have := ih _ _ _ h2
          simpa using Nat.le_succ_of_le this
    · split at h
      · cases h
        simp
      · split at h
        · cases h
          simp
        · have := ih _ _ _ h
          simpa using Nat.le_succ_of_le this

/-- The range-line loop never returns more lines than it was given. -/
theorem mtreeRangeLines_rem_le (ls : List String) :
    (mtreeRangeLines ls).2.length ≤ ls.length := by
  induction ls with
  | nil => simp [mtreeRangeLines]
  | cons l rest ih =>
    simp only [mtreeRangeLines]
    split
    · simpa using Nat.le_succ_of_le ih
    · split
      · simp
      · simpa using Nat.le_succ_of_le ih

/-- A FlatView section never returns more lines than it was given. -/
theorem _parse_flatview_section_rem_le (ls : List String) :
    ∀ v rem, _parse_flatview_section ls = .ok (v, rem) → rem.length ≤ ls.length := by
  intro v rem h
  simp only [_parse_flatview_section] at h
  cases h1 : mtreeSectionHeader ls with
  | error e => rw [h1] at h; cases h
  | ok trip =>
    rw [h1] at h
    obtain ⟨ns, early, rem1⟩ := trip
    have hle := mtreeSectionHeader_rem_le ls _ _ _ h1
    cases early with
    | true =>
      simp only [if_pos] at h
      cases h
      exact hle
    | false =>
      simp only [Bool.false_eq_true, if_false] at h
      cases rem1 with
      | nil =>
        cases h
        simp
      | cons l rest =>
        simp only [List.length_cons] at hle
        have h2 : (if pyStartswith (pyRstrip l) ("  No rendered FlatView") = true
            then Except.ok (([] : List (String × List String)), rest)
            else Except.ok (ns.map (fun n => (n, (mtreeRangeLines (l :: rest)).1)),
                            (mtreeRangeLines (l :: rest)).2)) = Except.ok (v, rem) := h
        by_cases hc : pyStartswith (pyRstrip l) ("  No rendered FlatView") = true
        · rw [if_pos hc] at h2
          cases h2
          omega
        · rw [if_neg hc] at h2
          cases h2
          have := mtreeRangeLines_rem_le (l :: rest)
          simp only [List.length_cons] at this
          omega


/-- `_parse_mtree_output_go` is fuel-irrelevant once the fuel covers the
line count, so the `fuel = 0` error branch is unreachable from
`_parse_mtree_output` (which starts with `fuel = lines.length`): the
function is exactly the Python `while` loop. -/
theorem _parse_mtree_output_go_fuel_irrelevant :
    ∀ n lines (views : List (String × List String)) f1 f2,
      lines.length ≤ n → lines.length ≤ f1 → lines.length ≤ f2 →
      _parse_mtree_output_go f1 lines views = _parse_mtree_output_go f2 lines views := by
  intro n
  induction n with
  | zero =>
    intro lines views f1 f2 hn _ _
    have : lines = [] := List.length_eq_zero.mp (by omega)
    subst this
    cases f1 <;> cases f2 <;> rfl
  | succ n ih =>
    intro lines views f1 f2 hn h1 h2
    cases lines with
    | nil => cases f1 <;> cases f2 <;> rfl
    | cons l rest =>
      simp only [List.length_cons] at hn h1 h2
      cases f1 with
      | zero => omega
      | succ g1 =>
        cases f2 with
        | zero => omega
        | succ g2 =>
          simp only [_parse_mtree_output_go]
          by_cases hc : pyStartswith (pyRstrip l) ("FlatView #") = true
          · rw [if_pos hc, if_pos hc]
            cases hs : _parse_flatview_section rest with
            | error e => rfl
            | ok vr =>
              have hrem := _parse_flatview_section_rem_le rest vr.1 vr.2 (by rw [hs])
              exact ih vr.2 (dictUpdate views vr.1) g1 g2 (by omega) (by omega) (by omega)
          · rw [if_neg hc, if_neg hc]
            exact ih rest views g1 g2 (by omega) (by omega) (by omega)
